import Mathlib

/-!
# Verification of the File-Flashcards deck-hierarchy engine

Shallow embedding of the pattern comparator (`src/managers/pattern-hierarchy.ts`),
the deck data model and hierarchy builder (`src/types/deck.ts`), and the deck
factory error channel (`Deck.buildDecks`).

JavaScript string primitives (`split`, `includes`, `startsWith`, `endsWith`,
first-occurrence `replace`) and the specific regular expressions used by the
source are modelled over `List Char` with the exact semantics the source relies
on.  JavaScript `Set` objects are modelled as insertion-ordered duplicate-free
lists; the mutable per-deck `children` sets are modelled as an arena indexed by
the deck's position in the input list, and the recursive `addChild` procedure
carries a fuel parameter because the source recursion is not structurally
terminating (the embedding returns `none` when fuel runs out, corresponding to
a non-terminating / stack-overflowing run of the source).
-/

namespace FileFlashcards

/-! ## JavaScript string primitives -/

/-- JavaScript `s.startsWith(pre)`, via `isPrefixOf` on character lists. -/
def jsStartsWith (s pre : String) : Bool :=
  pre.toList.isPrefixOf s.toList

/-- JavaScript `s.endsWith(suf)`. -/
def jsEndsWith (s suf : String) : Bool :=
  suf.toList.isSuffixOf s.toList

/-- JavaScript `s.includes(sub)`: some suffix of `s` has `sub` as a prefix. -/
def jsIncludes (s sub : String) : Bool :=
  s.toList.tails.any (fun t => sub.toList.isPrefixOf t)

/-- Split a character list on every occurrence of the (non-empty) separator,
scanning left to right, exactly like JavaScript `String.prototype.split` with
a non-empty string separator.  The recursion is driven by a fuel counter so
that the definition reduces inside the kernel; one unit of fuel per input
character always suffices, since a separator match consumes at least one
character. -/
def splitChars (sep : List Char) : Nat → List Char → List (List Char)
  | _, [] => [[]]
  | 0, l => [l]
  | fuel + 1, c :: rest =>
    if sep ≠ [] && sep.isPrefixOf (c :: rest) then
      [] :: splitChars sep fuel ((c :: rest).drop sep.length)
    else
      match splitChars sep fuel rest with
      | [] => [[c]]
      | a :: as => (c :: a) :: as

/-- JavaScript `s.split(sep)` for a non-empty separator (the only way the
source uses `split`; the empty-separator case is never exercised). -/
def jsSplitOn (s sep : String) : List String :=
  if sep.toList = [] then [s]
  else (splitChars sep.toList s.toList.length s.toList).map (fun cs => String.mk cs)

/-- JavaScript `s.replace(target, repl)` with string arguments: replaces only
the first occurrence of `target`. -/
def jsReplaceFirst (s target repl : String) : String :=
  match jsSplitOn s target with
  | [] => s
  | [_] => s
  | a :: rest => a ++ repl ++ String.intercalate target rest

/-- JavaScript `\w`: ASCII letters, digits and underscore. -/
def isWordChar (c : Char) : Bool :=
  c.isAlphanum || c = '_'

/-- The maximal suffix of `l` made of word characters (the characters a
trailing `(\w+)$` group can match). -/
def trailingWordRun (l : List Char) : List Char :=
  (l.reverse.takeWhile isWordChar).reverse

/-- JavaScript `s.match(/\*\.(\w+)$/)`: the captured extension, when the
string ends in `*.` followed by a non-empty word-character run. -/
def extMatch (s : String) : Option String :=
  let l := s.toList
  let t := trailingWordRun l
  if t = [] then none
  else
    let pre := l.take (l.length - t.length)
    if ['*', '.'].isSuffixOf pre then some (String.mk t) else none

/-- JavaScript `s.match(/^(\w+)-\*/)`: the captured word run, when the string
starts with a non-empty word-character run followed by `-*`. -/
def dashStarPrefixMatch (s : String) : Option String :=
  let l := s.toList
  let p := l.takeWhile isWordChar
  if p ≠ [] && ['-', '*'].isPrefixOf (l.drop p.length) then some (String.mk p)
  else none

/-- JavaScript `s.match(/^\*\*\.(\w+)$/)`: the captured extension. -/
def fullStarStarDotExt (s : String) : Option String :=
  match s.toList with
  | '*' :: '*' :: '.' :: t =>
    if t ≠ [] && t.all isWordChar then some (String.mk t) else none
  | _ => none

/-- JavaScript `s.match(/^\*\.(\w+)$/)`: the captured extension. -/
def fullStarDotExt (s : String) : Option String :=
  match s.toList with
  | '*' :: '.' :: t =>
    if t ≠ [] && t.all isWordChar then some (String.mk t) else none
  | _ => none

/-- JavaScript `s.match(/^(.+)\.(\w+)$/)`: name and extension.  The greedy
`(.+)` forces the extension group to be the maximal trailing word run,
preceded by a literal dot with a non-empty remainder before it. -/
def anyNameDotExt (s : String) : Option (String × String) :=
  let l := s.toList
  let t := trailingWordRun l
  if t = [] then none
  else
    let pre := l.take (l.length - t.length)
    match pre.reverse with
    | '.' :: g1rev => if g1rev ≠ [] then some (String.mk g1rev.reverse, String.mk t) else none
    | _ => none

/-- JavaScript `s.match(/^([^/]+)\.(\w+)$/)`: like `anyNameDotExt` but the
name group may not contain a slash. -/
def exactNameNoSlashDotExt (s : String) : Option (String × String) :=
  match anyNameDotExt s with
  | some (g1, e) => if jsIncludes g1 "/" then none else some (g1, e)
  | none => none

/-- JavaScript `s.match(/^.+\/([^/]+)\.(\w+)$/)`: the slash used must be the
last slash of the string (the two groups after it cannot contain one), and at
least one character must precede it. -/
def subdirNameDotExt (s : String) : Option (String × String) :=
  let l := s.toList
  let segRev := l.reverse.takeWhile (fun c => c ≠ '/')
  let before := l.take (l.length - segRev.length - 1)
  if segRev.length + 1 ≤ l.length && (l.drop before.length).take 1 = ['/'] && before ≠ [] then
    exactNameNoSlashDotExt (String.mk segRev.reverse)
  else none

/-- JavaScript `s.match(/^(.+)-\*\.(\w+)$/)`: extension is the maximal
trailing word run, preceded by the literal `-*.`, with a non-empty group
before the dash. -/
def dashStarDotExt (s : String) : Option (String × String) :=
  let l := s.toList
  let t := trailingWordRun l
  if t = [] then none
  else
    let pre := l.take (l.length - t.length)
    match pre.reverse with
    | '.' :: '*' :: '-' :: g1rev =>
      if g1rev ≠ [] then some (String.mk g1rev.reverse, String.mk t) else none
    | _ => none

/-! ## PatternHierarchy (`src/managers/pattern-hierarchy.ts`) -/

namespace PatternHierarchy

/-- Model of `PatternHierarchy.isDirectoryChild` (pattern-hierarchy.ts lines 23-33):
strip everything from the first `/**` and compare bare directory paths. -/
def isDirectoryChild (child parent : String) : Bool :=
  if jsIncludes child "/" && jsIncludes parent "/" then
    let childDir := (jsSplitOn child "/**").headD ""
    let parentDir := (jsSplitOn parent "/**").headD ""
    jsStartsWith childDir (parentDir ++ "/") && childDir ≠ parentDir
  else false

/-- Model of `PatternHierarchy.areIncompatible` (lines 35-68).  In the source's
positional-segment loop both branches of the substring test return `true`, so
a mismatch of two literal segments is always incompatible. -/
def areIncompatible (child parent : String) : Bool :=
  let childExt := extMatch child
  let parentExt := extMatch parent
  if childExt.isSome && parentExt.isSome && childExt ≠ parentExt then true
  else
    let childPre := dashStarPrefixMatch child
    let parentPre := dashStarPrefixMatch parent
    if childPre.isSome && parentPre.isSome && childPre ≠ parentPre then true
    else
      let childParts := jsSplitOn child "/"
      let parentParts := jsSplitOn parent "/"
      (List.range (min childParts.length parentParts.length)).any (fun i =>
        let cp := childParts.getD i ""
        let pp := parentParts.getD i ""
        !(jsIncludes cp "*") && !(jsIncludes pp "*") && cp ≠ pp)

/-- Model of `PatternHierarchy.isFilenamePattern` (lines 99-150).  When the `**.ext`
block matches nothing, control falls through to the root-level `*.ext`
logic, exactly as in the source. -/
def isFilenamePattern (child parent : String) : Bool :=
  let pG := fullStarStarDotExt parent
  if pG.isSome &&
      ((fullStarDotExt child).isSome && fullStarDotExt child == pG ||
        (match exactNameNoSlashDotExt child with
          | some (_, e) => !(jsIncludes child "*") && some e == pG
          | none => false) ||
        (match subdirNameDotExt child with
          | some (_, e) => !(jsIncludes child "*") && some e == pG
          | none => false)) then
    true
  else if jsIncludes child "/" || jsIncludes parent "/" then false
  else
    match fullStarDotExt parent with
    | none => false
    | some pExt =>
      match dashStarDotExt child with
      | some (_, cExt) => cExt == pExt
      | none =>
        match anyNameDotExt child with
        | some (_, cExt) => if !(jsIncludes child "*") then cExt == pExt else false
        | none => false

/-- Model of `PatternHierarchy.isMoreSpecific` (lines 70-97).  Note the source's
`'**/*'` branch returns `true` in both arms of its conditional expression. -/
def isMoreSpecific (child parent : String) : Bool :=
  if parent = "**" then child ≠ "**"
  else if parent = "*" then
    !(jsIncludes child "/") && child ≠ "*" && !(jsIncludes child "**")
  else if parent = "**/*" then
    if child = "**" then false else true
  else if parent = "*/**" then
    jsIncludes child "/" && child ≠ "*" && child ≠ "**" && child ≠ "**/*"
  else if isFilenamePattern child parent then true
  else if jsEndsWith parent "/**" && jsStartsWith child (jsReplaceFirst parent "/**" "/") then true
  else false

/-- Model of `PatternHierarchy.isSubset` (lines 2-21). -/
def isSubset (child parent : String) : Bool :=
  if child = parent then false
  else if child = "" || parent = "" then false
  else if isDirectoryChild child parent then true
  else if areIncompatible child parent then false
  else isMoreSpecific child parent

end PatternHierarchy

/-! ## Deck data model (`src/types/deck.ts`)

A `Card` carries the file path and question; its spaced-repetition record
(`sr`) never influences any operation verified here (only `card.path` and the
card-list length are read by the hierarchy code), so it is not modelled. -/

structure Card where
  path : String
  question : String
deriving DecidableEq, Repr

structure Deck where
  pattern : String
  cards : List Card
deriving DecidableEq, Repr

instance : Inhabited Deck := ⟨⟨"", []⟩⟩

/-- Model of `Deck.isChildOf` (deck.ts lines 194-215).  The source converts the card
arrays to `Set`s of paths before the `every`/`has` subset test; since the test
is a universally quantified membership check, deduplication does not change
its value and the test is taken directly over the lists.  The cardinality
comparisons use the raw array lengths, as in the source. -/
def Deck.isChildOf (a b : Deck) : Bool :=
  if a.cards.length > b.cards.length then false
  else if a.cards.length > 0 && b.cards.length > 0 then
    let result := a.cards.all (fun c => b.cards.any (fun d => d.path == c.path))
    if result && a.cards.length == b.cards.length then
      PatternHierarchy.isSubset a.pattern b.pattern
    else result
  else PatternHierarchy.isSubset a.pattern b.pattern

/-! ## Hierarchy builder (`Deck.buildDeckHierarchy` / `Deck.addChild`)

Decks are identified with their index in the input list (object identity in
the source; `deck === other` becomes index equality).  Each deck's mutable
`children : Set<Deck>` becomes one entry of an arena `List (List Nat)`;
JavaScript `Set` insertion order and idempotent `add` are preserved.  The
pairwise relation `isChildOf` reads only the immutable `pattern`/`cards`
fields, so it is precomputed as `R : Nat → Nat → Bool` over indices.  The
source's `addChild` recursion need not terminate (mutually-related patterns
can build cyclic children sets that the recursion then chases), hence the
fuel; both `for` loops of `addChild` iterate over the snapshot of
`this.children` taken at entry, which coincides with the live-set iteration on
every run in which the recursion does not mutate `this.children` itself. -/

/-- Element lookup in the children arena (out-of-range reads give the empty
set, matching a never-written `Set`). -/
def getIdx : List (List Nat) → Nat → List Nat
  | [], _ => []
  | a :: _, 0 => a
  | _ :: rest, n + 1 => getIdx rest n

/-- Replace entry `i` of the arena (no-op when out of range). -/
def setIdx : List (List Nat) → Nat → List Nat → List (List Nat)
  | [], _, _ => []
  | _ :: rest, 0, v => v :: rest
  | a :: rest, n + 1, v => a :: setIdx rest n v

/-- JavaScript `Set.add`: append, unless already present. -/
def setAdd (l : List Nat) (x : Nat) : List Nat :=
  if x ∈ l then l else l ++ [x]

/-- First loop of `Deck.addChild` (deck.ts lines 224-229): recurse into every
existing child the new child is a child of, flagging `added`. -/
def addLoop1 (step : List (List Nat) → Nat → Nat → Option (List (List Nat)))
    (R : Nat → Nat → Bool) (c : Nat) :
    List Nat → List (List Nat) → Bool → Option (List (List Nat) × Bool)
  | [], ch, added => some (ch, added)
  | e :: rest, ch, added =>
    if R c e then
      match step ch e c with
      | none => none
      | some ch2 => addLoop1 step R c rest ch2 true
    else addLoop1 step R c rest ch added

/-- Second loop of `Deck.addChild` (lines 233-240): reattach existing children
of the new child under it, collecting them for deferred removal. -/
def addLoop2 (step : List (List Nat) → Nat → Nat → Option (List (List Nat)))
    (R : Nat → Nat → Bool) (c : Nat) :
    List Nat → List (List Nat) → List Nat → Option (List (List Nat) × List Nat)
  | [], ch, rem => some (ch, rem)
  | e :: rest, ch, rem =>
    if R e c then
      match step ch c e with
      | none => none
      | some ch2 => addLoop2 step R c rest ch2 (setAdd rem e)
    else addLoop2 step R c rest ch rem

/-- Model of `Deck.addChild` (deck.ts lines 217-248) over the arena: subject `t`,
child `c`. -/
def Deck.addChild (R : Nat → Nat → Bool) :
    Nat → List (List Nat) → Nat → Nat → Option (List (List Nat))
  | 0, _, _, _ => none
  | fuel + 1, ch, t, c =>
    let cur := getIdx ch t
    if c ∈ cur then some ch
    else
      match addLoop1 (fun ch2 t2 c2 => Deck.addChild R fuel ch2 t2 c2) R c cur ch false with
      | none => none
      | some (ch1, true) => some ch1
      | some (ch1, false) =>
        match addLoop2 (fun ch2 t2 c2 => Deck.addChild R fuel ch2 t2 c2) R c cur ch1 [] with
        | none => none
        | some (ch2, rem) =>
          some (setIdx ch2 t (setAdd ((getIdx ch2 t).filter (fun x => !(rem.contains x))) c))

/-- The pairwise relation of `buildDeckHierarchy`'s nested loops, over input
indices. -/
def deckR (l : List Deck) (i j : Nat) : Bool :=
  match l.get? i, l.get? j with
  | some a, some b => a.isChildOf b
  | _, _ => false

/-- Inner loop of `Deck.buildDeckHierarchy` (deck.ts lines 97-104): the deck
at index `i` against every other deck, attaching and marking for removal. -/
def hierLoopInner (R : Nat → Nat → Bool) (fuel : Nat) (i : Nat) :
    List Nat → List (List Nat) → List Nat → Option (List (List Nat) × List Nat)
  | [], ch, rem => some (ch, rem)
  | j :: js, ch, rem =>
    if i = j then hierLoopInner R fuel i js ch rem
    else if R i j then
      match Deck.addChild R fuel ch j i with
      | none => none
      | some ch2 => hierLoopInner R fuel i js ch2 (setAdd rem i)
    else hierLoopInner R fuel i js ch rem

/-- Outer loop of `Deck.buildDeckHierarchy` (lines 95-105). -/
def hierLoopOuter (R : Nat → Nat → Bool) (fuel : Nat) (allIdx : List Nat) :
    List Nat → List (List Nat) → List Nat → Option (List (List Nat) × List Nat)
  | [], ch, rem => some (ch, rem)
  | i :: is, ch, rem =>
    match hierLoopInner R fuel i allIdx ch rem with
    | none => none
    | some (ch2, rem2) => hierLoopOuter R fuel allIdx is ch2 rem2

/-- Result of a build: the indices surviving at top level (the mutated `decks`
set, original insertion order minus the deferred removals) and the children
arena. -/
structure BuildResult where
  rootIdx : List Nat
  children : List (List Nat)
deriving DecidableEq, Repr

/-- Model of `Deck.buildDeckHierarchy` (deck.ts lines 92-111). -/
def Deck.buildDeckHierarchy (fuel : Nat) (l : List Deck) : Option BuildResult :=
  let n := l.length
  match hierLoopOuter (deckR l) fuel (List.range n) (List.range n) (List.replicate n []) [] with
  | none => none
  | some (ch, rem) => some ⟨(List.range n).filter (fun i => !(rem.contains i)), ch⟩

/-! ## Arena lemmas -/

theorem getIdx_nil (i : Nat) : getIdx [] i = [] := by
  cases i <;> rfl

theorem getIdx_replicate_nil (n i : Nat) : getIdx (List.replicate n []) i = [] := by
  induction n generalizing i with
  | zero => simp only [List.replicate]; exact getIdx_nil i
  | succ n ih =>
    cases i with
    | zero => rfl
    | succ j => exact ih j

theorem mem_getIdx_setIdx {ch : List (List Nat)} {t : Nat} {v : List Nat} {y x : Nat}
    (h : x ∈ getIdx (setIdx ch t v) y) : x ∈ getIdx ch y ∨ (y = t ∧ x ∈ v) := by
  induction ch generalizing t y with
  | nil => simp only [setIdx] at h; exact Or.inl h
  | cons a rest ih =>
    cases t with
    | zero =>
      cases y with
      | zero => exact Or.inr ⟨rfl, h⟩
      | succ y' => exact Or.inl h
    | succ t' =>
      cases y with
      | zero => exact Or.inl h
      | succ y' =>
        rcases ih h with h' | ⟨rfl, hv⟩
        · exact Or.inl h'
        · exact Or.inr ⟨rfl, hv⟩

theorem mem_setAdd_iff {l : List Nat} {a x : Nat} : x ∈ setAdd l a ↔ x ∈ l ∨ x = a := by
  unfold setAdd
  by_cases h : a ∈ l
  · rw [if_pos h]
    constructor
    · exact Or.inl
    · rintro (hx | rfl)
      · exact hx
      · exact h
  · rw [if_neg h]
    simp [List.mem_append]

/-- Membership somewhere in the children arena. -/
def memCh (ch : List (List Nat)) (x : Nat) : Prop :=
  ∃ y, x ∈ getIdx ch y

/-- Every children-set member satisfies the pairwise relation against its
parent: the key structural invariant of the builder. -/
def invR (R : Nat → Nat → Bool) (ch : List (List Nat)) : Prop :=
  ∀ y x, x ∈ getIdx ch y → R x y = true

/-! ## Invariants of `addChild` -/

theorem addLoop1_mem {R : Nat → Nat → Bool} {c : Nat}
    {step : List (List Nat) → Nat → Nat → Option (List (List Nat))}
    (hstep : ∀ ch e ch', step ch e c = some ch' → ∀ x, memCh ch' x → memCh ch x ∨ x = c) :
    ∀ es ch added out, addLoop1 step R c es ch added = some out →
      ∀ x, memCh out.1 x → memCh ch x ∨ x = c := by
  intro es
  induction es with
  | nil =>
    intro ch added out h x hx
    simp only [addLoop1] at h
    cases h
    exact Or.inl hx
  | cons e rest ih =>
    intro ch added out h x hx
    simp only [addLoop1] at h
    by_cases hre : R c e = true
    · rw [if_pos hre] at h
      cases hse : step ch e c with
      | none => rw [hse] at h; cases h
      | some ch2 =>
        rw [hse] at h
        rcases ih ch2 true out h x hx with h' | h'
        · exact hstep ch e ch2 hse x h'
        · exact Or.inr h'
    · rw [if_neg hre] at h
      exact ih ch added out h x hx

theorem addLoop2_mem {R : Nat → Nat → Bool} {c : Nat}
    {step : List (List Nat) → Nat → Nat → Option (List (List Nat))}
    (hstep : ∀ ch e ch', step ch c e = some ch' → ∀ x, memCh ch' x → memCh ch x ∨ x = e) :
    ∀ es ch rem out, addLoop2 step R c es ch rem = some out →
      ∀ x, memCh out.1 x → memCh ch x ∨ x ∈ es := by
  intro es
  induction es with
  | nil =>
    intro ch rem out h x hx
    simp only [addLoop2] at h
    cases h
    exact Or.inl hx
  | cons e rest ih =>
    intro ch rem out h x hx
    simp only [addLoop2] at h
    by_cases hre : R e c = true
    · rw [if_pos hre] at h
      cases hse : step ch c e with
      | none => rw [hse] at h; cases h
      | some ch2 =>
        rw [hse] at h
        rcases ih ch2 (setAdd rem e) out h x hx with h' | h'
        · rcases hstep ch e ch2 hse x h' with h'' | rfl
          · exact Or.inl h''
          · exact Or.inr (List.mem_cons_self _ _)
        · exact Or.inr (List.mem_cons_of_mem _ h')
    · rw [if_neg hre] at h
      rcases ih ch rem out h x hx with h' | h'
      · exact Or.inl h'
      · exact Or.inr (List.mem_cons_of_mem _ h')

/-- Members of the arena after `addChild ch t c` were members before, except
possibly `c` itself: `addChild` never invents other children. -/
theorem addChild_mem (R : Nat → Nat → Bool) :
    ∀ (fuel : Nat) (ch : List (List Nat)) (t c : Nat) (ch' : List (List Nat)),
      Deck.addChild R fuel ch t c = some ch' →
      ∀ x, memCh ch' x → memCh ch x ∨ x = c := by
  intro fuel
  induction fuel with
  | zero => intro ch t c ch' h; cases h
  | succ fuel ih =>
    intro ch t c ch' h x hx
    simp only [Deck.addChild] at h
    by_cases hc : c ∈ getIdx ch t
    · rw [if_pos hc] at h
      cases h
      exact Or.inl hx
    · rw [if_neg hc] at h
      cases h1 : addLoop1 (fun ch2 t2 c2 => Deck.addChild R fuel ch2 t2 c2) R c (getIdx ch t) ch false with
      | none => rw [h1] at h; cases h
      | some p1 =>
        rw [h1] at h
        obtain ⟨ch1, added⟩ := p1
        cases added with
        | true =>
          cases h
          exact addLoop1_mem (fun cha e ch'' hs => ih cha e c ch'' hs) _ _ _ _ h1 x hx
        | false =>
          dsimp only at h
          cases h2 : addLoop2 (fun ch2 t2 c2 => Deck.addChild R fuel ch2 t2 c2) R c (getIdx ch t) ch1 [] with
          | none => rw [h2] at h; cases h
          | some p2 =>
            rw [h2] at h
            obtain ⟨ch2, rem⟩ := p2
            cases h
            rcases hx with ⟨y, hy⟩
            rcases mem_getIdx_setIdx hy with hy' | ⟨rfl, hv⟩
            · -- member of ch2: trace back through the two loops
              have hx2 : memCh ch2 x := ⟨y, hy'⟩
              rcases addLoop2_mem (fun cha e ch'' hs => ih cha c e ch'' hs) _ _ _ _ h2 x hx2 with h' | h'
              · exact addLoop1_mem (fun cha e ch'' hs => ih cha e c ch'' hs) _ _ _ _ h1 x h'
              · exact Or.inl ⟨t, h'⟩
            · -- member of the new children list of `t`
              rcases mem_setAdd_iff.mp hv with hf | rfl
              · have hx2 : memCh ch2 x := ⟨y, (List.mem_filter.mp hf).1⟩
                rcases addLoop2_mem (fun cha e ch'' hs => ih cha c e ch'' hs) _ _ _ _ h2 x hx2 with h' | h'
                · exact addLoop1_mem (fun cha e ch'' hs => ih cha e c ch'' hs) _ _ _ _ h1 x h'
                · exact Or.inl ⟨y, h'⟩
              · exact Or.inr rfl

theorem addLoop1_inv {R : Nat → Nat → Bool} {c : Nat}
    {step : List (List Nat) → Nat → Nat → Option (List (List Nat))}
    (hstep : ∀ ch e ch', R c e = true → step ch e c = some ch' → invR R ch → invR R ch') :
    ∀ es ch added out, addLoop1 step R c es ch added = some out →
      invR R ch → invR R out.1 := by
  intro es
  induction es with
  | nil =>
    intro ch added out h hinv
    simp only [addLoop1] at h
    cases h
    exact hinv
  | cons e rest ih =>
    intro ch added out h hinv
    simp only [addLoop1] at h
    by_cases hre : R c e = true
    · rw [if_pos hre] at h
      cases hse : step ch e c with
      | none => rw [hse] at h; cases h
      | some ch2 =>
        rw [hse] at h
        exact ih ch2 true out h (hstep ch e ch2 hre hse hinv)
    · rw [if_neg hre] at h
      exact ih ch added out h hinv

theorem addLoop2_inv {R : Nat → Nat → Bool} {c : Nat}
    {step : List (List Nat) → Nat → Nat → Option (List (List Nat))}
    (hstep : ∀ ch e ch', R e c = true → step ch c e = some ch' → invR R ch → invR R ch') :
    ∀ es ch rem out, addLoop2 step R c es ch rem = some out →
      invR R ch → invR R out.1 := by
  intro es
  induction es with
  | nil =>
    intro ch rem out h hinv
    simp only [addLoop2] at h
    cases h
    exact hinv
  | cons e rest ih =>
    intro ch rem out h hinv
    simp only [addLoop2] at h
    by_cases hre : R e c = true
    · rw [if_pos hre] at h
      cases hse : step ch c e with
      | none => rw [hse] at h; cases h
      | some ch2 =>
        rw [hse] at h
        exact ih ch2 (setAdd rem e) out h (hstep ch e ch2 hre hse hinv)
    · rw [if_neg hre] at h
      exact ih ch rem out h hinv

/-- Lemma: `addChild` preserves the invariant that children-set membership implies
the pairwise relation, provided the inserted child is in relation with the
subject — which every call site guarantees. -/
theorem addChild_inv (R : Nat → Nat → Bool) :
    ∀ (fuel : Nat) (ch : List (List Nat)) (t c : Nat) (ch' : List (List Nat)),
      R c t = true → Deck.addChild R fuel ch t c = some ch' →
      invR R ch → invR R ch' := by
  intro fuel
  induction fuel with
  | zero => intro ch t c ch' _ h; cases h
  | succ fuel ih =>
    intro ch t c ch' hct h hinv
    simp only [Deck.addChild] at h
    by_cases hc : c ∈ getIdx ch t
    · rw [if_pos hc] at h
      cases h
      exact hinv
    · rw [if_neg hc] at h
      cases h1 : addLoop1 (fun ch2 t2 c2 => Deck.addChild R fuel ch2 t2 c2) R c (getIdx ch t) ch false with
      | none => rw [h1] at h; cases h
      | some p1 =>
        rw [h1] at h
        obtain ⟨ch1, added⟩ := p1
        have hinv1 : invR R ch1 :=
          addLoop1_inv (fun cha e ch'' hre hs hi => ih cha e c ch'' hre hs hi) _ _ _ _ h1 hinv
        cases added with
        | true =>
          cases h
          exact hinv1
        | false =>
          dsimp only at h
          cases h2 : addLoop2 (fun ch2 t2 c2 => Deck.addChild R fuel ch2 t2 c2) R c (getIdx ch t) ch1 [] with
          | none => rw [h2] at h; cases h
          | some p2 =>
            rw [h2] at h
            obtain ⟨ch2, rem⟩ := p2
            cases h
            have hinv2 : invR R ch2 :=
              addLoop2_inv (fun cha e ch'' hre hs hi => ih cha c e ch'' hre hs hi) _ _ _ _ h2 hinv1
            intro y x hx
            rcases mem_getIdx_setIdx hx with hx' | ⟨rfl, hv⟩
            · exact hinv2 y x hx'
            · rcases mem_setAdd_iff.mp hv with hf | rfl
              · exact hinv2 y x (List.mem_filter.mp hf).1
              · exact hct

/-! ## Invariants of the build loops -/

theorem hierLoopInner_inv {R : Nat → Nat → Bool} {fuel i : Nat} :
    ∀ js ch rem out, hierLoopInner R fuel i js ch rem = some out →
      invR R ch → invR R out.1 := by
  intro js
  induction js with
  | nil =>
    intro ch rem out h hinv
    simp only [hierLoopInner] at h
    cases h
    exact hinv
  | cons j js ih =>
    intro ch rem out h hinv
    simp only [hierLoopInner] at h
    by_cases hij : i = j
    · rw [if_pos hij] at h
      exact ih ch rem out h hinv
    · rw [if_neg hij] at h
      by_cases hr : R i j = true
      · rw [if_pos hr] at h
        cases ha : Deck.addChild R fuel ch j i with
        | none => rw [ha] at h; cases h
        | some ch2 =>
          rw [ha] at h
          exact ih ch2 (setAdd rem i) out h (addChild_inv R fuel ch j i ch2 hr ha hinv)
      · rw [if_neg hr] at h
        exact ih ch rem out h hinv

theorem hierLoopOuter_inv {R : Nat → Nat → Bool} {fuel : Nat} {allIdx : List Nat} :
    ∀ is ch rem out, hierLoopOuter R fuel allIdx is ch rem = some out →
      invR R ch → invR R out.1 := by
  intro is
  induction is with
  | nil =>
    intro ch rem out h hinv
    simp only [hierLoopOuter] at h
    cases h
    exact hinv
  | cons i is ih =>
    intro ch rem out h hinv
    simp only [hierLoopOuter] at h
    cases hin : hierLoopInner R fuel i allIdx ch rem with
    | none => rw [hin] at h; cases h
    | some p =>
      rw [hin] at h
      exact ih p.1 p.2 out h (hierLoopInner_inv _ _ _ _ hin hinv)

/-- The children arena of a completed build only relates pairs satisfying
`isChildOf`: if deck `x` ends up in deck `y`'s children set then
`deckR l x y` holds. -/
theorem buildDeckHierarchy_inv {fuel : Nat} {l : List Deck} {res : BuildResult}
    (h : Deck.buildDeckHierarchy fuel l = some res) :
    ∀ y x, x ∈ getIdx res.children y → deckR l x y = true := by
  simp only [Deck.buildDeckHierarchy] at h
  cases hout : hierLoopOuter (deckR l) fuel (List.range l.length) (List.range l.length)
      (List.replicate l.length []) [] with
  | none => rw [hout] at h; cases h
  | some p =>
    rw [hout] at h
    cases h
    have hinit : invR (deckR l) (List.replicate l.length []) := by
      intro y x hx
      rw [getIdx_replicate_nil] at hx
      cases hx
    exact hierLoopOuter_inv _ _ _ _ hout hinit

/-- Members of the children arena of a completed build are exactly decks that
were marked for removal: they cannot be roots. -/
theorem hierLoopInner_memRem {R : Nat → Nat → Bool} {fuel i : Nat} :
    ∀ js ch rem out, hierLoopInner R fuel i js ch rem = some out →
      (∀ x, memCh ch x → x ∈ rem) → ∀ x, memCh out.1 x → x ∈ out.2 := by
  intro js
  induction js with
  | nil =>
    intro ch rem out h hpre
    simp only [hierLoopInner] at h
    cases h
    exact hpre
  | cons j js ih =>
    intro ch rem out h hpre
    simp only [hierLoopInner] at h
    by_cases hij : i = j
    · rw [if_pos hij] at h
      exact ih ch rem out h hpre
    · rw [if_neg hij] at h
      by_cases hr : R i j = true
      · rw [if_pos hr] at h
        cases ha : Deck.addChild R fuel ch j i with
        | none => rw [ha] at h; cases h
        | some ch2 =>
          rw [ha] at h
          refine ih ch2 (setAdd rem i) out h ?_
          intro x hx
          rcases addChild_mem R fuel ch j i ch2 ha x hx with hx' | rfl
          · exact mem_setAdd_iff.mpr (Or.inl (hpre x hx'))
          · exact mem_setAdd_iff.mpr (Or.inr rfl)
      · rw [if_neg hr] at h
        exact ih ch rem out h hpre

theorem hierLoopOuter_memRem {R : Nat → Nat → Bool} {fuel : Nat} {allIdx : List Nat} :
    ∀ is ch rem out, hierLoopOuter R fuel allIdx is ch rem = some out →
      (∀ x, memCh ch x → x ∈ rem) → ∀ x, memCh out.1 x → x ∈ out.2 := by
  intro is
  induction is with
  | nil =>
    intro ch rem out h hpre
    simp only [hierLoopOuter] at h
    cases h
    exact hpre
  | cons i is ih =>
    intro ch rem out h hpre
    simp only [hierLoopOuter] at h
    cases hin : hierLoopInner R fuel i allIdx ch rem with
    | none => rw [hin] at h; cases h
    | some p =>
      rw [hin] at h
      exact ih p.1 p.2 out h (hierLoopInner_memRem _ _ _ _ hin hpre)

/-! ## Irreflexivity and the root-set characterisation -/

/-- The pairwise relation is irreflexive: a deck is never its own child
(identical patterns are rejected by `isSubset`, and the tie-break path of
equal card sets falls back to exactly that pattern comparison). -/
theorem Deck.isChildOf_self (d : Deck) : d.isChildOf d = false := by
  have hsub : PatternHierarchy.isSubset d.pattern d.pattern = false := by
    unfold PatternHierarchy.isSubset
    rw [if_pos rfl]
  have hres : (d.cards.all fun c => d.cards.any fun e => e.path == c.path) = true := by
    rw [List.all_eq_true]
    intro c hc
    rw [List.any_eq_true]
    exact ⟨c, hc, by simp⟩
  unfold Deck.isChildOf
  simp [hres, hsub]

theorem bool_eq_of_iff {a b : Bool} (h : a = true ↔ b = true) : a = b := by
  cases a <;> cases b <;> simp_all

/-- Exact membership characterisation of the removal set built by the inner
loop: a deck is (newly) marked for removal iff it is the scanned deck `i` and
some other deck of the scan list is its parent per `R`. -/
theorem hierLoopInner_rem {R : Nat → Nat → Bool} {fuel i : Nat} :
    ∀ js ch rem out, hierLoopInner R fuel i js ch rem = some out →
      ∀ x, x ∈ out.2 ↔ x ∈ rem ∨ (x = i ∧ ∃ j ∈ js, j ≠ i ∧ R i j = true) := by
  intro js
  induction js with
  | nil =>
    intro ch rem out h x
    simp only [hierLoopInner] at h
    cases h
    simp
  | cons j js ih =>
    intro ch rem out h x
    simp only [hierLoopInner] at h
    by_cases hij : i = j
    · rw [if_pos hij] at h
      rw [ih ch rem out h x]
      constructor
      · rintro (hx | ⟨rfl, j', hj', hne, hr⟩)
        · exact Or.inl hx
        · exact Or.inr ⟨rfl, j', List.mem_cons_of_mem _ hj', hne, hr⟩
      · rintro (hx | ⟨rfl, j', hj', hne, hr⟩)
        · exact Or.inl hx
        · rcases List.mem_cons.mp hj' with rfl | hj''
          · exact absurd hij.symm hne
          · exact Or.inr ⟨rfl, j', hj'', hne, hr⟩
    · rw [if_neg hij] at h
      by_cases hr : R i j = true
      · rw [if_pos hr] at h
        cases ha : Deck.addChild R fuel ch j i with
        | none => rw [ha] at h; cases h
        | some ch2 =>
          rw [ha] at h
          rw [ih ch2 (setAdd rem i) out h x, mem_setAdd_iff]
          constructor
          · rintro ((hx | rfl) | ⟨rfl, j', hj', hne, hr'⟩)
            · exact Or.inl hx
            · exact Or.inr ⟨rfl, j, List.mem_cons_self _ _, fun hq => hij hq.symm, hr⟩
            · exact Or.inr ⟨rfl, j', List.mem_cons_of_mem _ hj', hne, hr'⟩
          · rintro (hx | ⟨rfl, j', hj', hne, hr'⟩)
            · exact Or.inl (Or.inl hx)
            · exact Or.inl (Or.inr rfl)
      · rw [if_neg hr] at h
        rw [ih ch rem out h x]
        constructor
        · rintro (hx | ⟨rfl, j', hj', hne, hr'⟩)
          · exact Or.inl hx
          · exact Or.inr ⟨rfl, j', List.mem_cons_of_mem _ hj', hne, hr'⟩
        · rintro (hx | ⟨rfl, j', hj', hne, hr'⟩)
          · exact Or.inl hx
          · rcases List.mem_cons.mp hj' with rfl | hj''
            · exact absurd hr' hr
            · exact Or.inr ⟨rfl, j', hj'', hne, hr'⟩

theorem hierLoopOuter_rem {R : Nat → Nat → Bool} {fuel : Nat} {allIdx : List Nat} :
    ∀ is ch rem out, hierLoopOuter R fuel allIdx is ch rem = some out →
      ∀ x, x ∈ out.2 ↔ x ∈ rem ∨ (x ∈ is ∧ ∃ j ∈ allIdx, j ≠ x ∧ R x j = true) := by
  intro is
  induction is with
  | nil =>
    intro ch rem out h x
    simp only [hierLoopOuter] at h
    cases h
    simp
  | cons i is ih =>
    intro ch rem out h x
    simp only [hierLoopOuter] at h
    cases hin : hierLoopInner R fuel i allIdx ch rem with
    | none => rw [hin] at h; cases h
    | some p =>
      rw [hin] at h
      rw [ih p.1 p.2 out h x, hierLoopInner_rem _ _ _ _ hin x]
      constructor
      · rintro ((hx | ⟨rfl, hE⟩) | ⟨hxis, hE⟩)
        · exact Or.inl hx
        · exact Or.inr ⟨List.mem_cons_self _ _, hE⟩
        · exact Or.inr ⟨List.mem_cons_of_mem _ hxis, hE⟩
      · rintro (hx | ⟨hxmem, hE⟩)
        · exact Or.inl (Or.inl hx)
        · rcases List.mem_cons.mp hxmem with rfl | hxis
          · exact Or.inl (Or.inr ⟨rfl, hE⟩)
          · exact Or.inr ⟨hxis, hE⟩

/-- Index-to-value transport: filtering `List.range` by a predicate that
mirrors a value predicate and reading the values back gives a plain filter. -/
theorem filterMap_get?_range_filter {α : Type} (l : List α) (P : Nat → Bool) (p : α → Bool)
    (hPp : ∀ i a, l.get? i = some a → P i = p a) :
    ((List.range l.length).filter P).filterMap l.get? = l.filter p := by
  induction l using List.reverseRecOn with
  | nil => simp
  | append_singleton l a ih =>
    have hPa : P l.length = p a := hPp l.length a (List.get?_concat_length l a)
    have hPp2 : ∀ i b, l.get? i = some b → P i = p b := by
      intro i b hib
      have hi : i < l.length := (List.get?_eq_some.mp hib).1
      exact hPp i b (by rw [List.get?_append hi]; exact hib)
    have hcongr : ∀ x ∈ (List.range l.length).filter P, (l ++ [a]).get? x = l.get? x := by
      intro x hx
      exact List.get?_append (List.mem_range.mp (List.mem_filter.mp hx).1)
    rw [show (l ++ [a]).length = l.length + 1 by simp,
      show List.range (l.length + 1) = List.range l.length ++ [l.length] from List.range_succ l.length,
      List.filter_append, List.filterMap_append, List.filter_append,
      List.filterMap_congr hcongr, ih hPp2]
    congr 1
    simp only [List.filter_singleton, hPa]
    cases hpa : p a with
    | true => simp [List.get?_concat_length, hpa]
    | false => simp [hpa]

/-- The deck values surviving at top level after a build (the mutated `decks`
set, in insertion order). -/
def rootDecks (l : List Deck) (res : BuildResult) : List Deck :=
  res.rootIdx.filterMap l.get?

/-- The root set of a completed build is exactly the decks that are nobody's
child under the pairwise relation: the removal set is computed purely from
`isChildOf`, independently of the children arena. -/
theorem rootDecks_eq {fuel : Nat} {l : List Deck} {res : BuildResult}
    (h : Deck.buildDeckHierarchy fuel l = some res) :
    rootDecks l res = l.filter (fun d => !(l.any (fun o => d.isChildOf o))) := by
  simp only [Deck.buildDeckHierarchy] at h
  cases hout : hierLoopOuter (deckR l) fuel (List.range l.length) (List.range l.length)
      (List.replicate l.length []) [] with
  | none => rw [hout] at h; cases h
  | some p =>
    rw [hout] at h
    cases h
    unfold rootDecks
    apply filterMap_get?_range_filter
    intro i a hia
    have hi : i < l.length := (List.get?_eq_some.mp hia).1
    have hrem := hierLoopOuter_rem _ _ _ _ hout
    congr 1
    apply bool_eq_of_iff
    constructor
    · intro hcont
      have himem : i ∈ p.2 := List.elem_iff.mp hcont
      rcases (hrem i).mp himem with hx | ⟨_, j, hjr, hne, hR⟩
      · cases hx
      · rw [List.any_eq_true]
        unfold deckR at hR
        rw [hia] at hR
        cases hlj : l.get? j with
        | none => rw [hlj] at hR; cases hR
        | some b =>
          rw [hlj] at hR
          exact ⟨b, List.get?_mem hlj, hR⟩
    · intro hany
      rcases List.any_eq_true.mp hany with ⟨o, ho, hio⟩
      rcases List.mem_iff_get?.mp ho with ⟨j, hj⟩
      have hjlt : j < l.length := (List.get?_eq_some.mp hj).1
      have hne : j ≠ i := by
        rintro rfl
        rw [hia] at hj
        injection hj with hj2
        rw [← hj2] at hio
        rw [Deck.isChildOf_self] at hio
        cases hio
      have himem : i ∈ p.2 :=
        (hrem i).mpr (Or.inr ⟨List.mem_range.mpr hi, j, List.mem_range.mpr hjlt, hne, by
          unfold deckR
          rw [hia, hj]
          exact hio⟩)
      exact List.elem_iff.mpr himem

/-! ## Claim theorems: computational claims and counterexamples -/

/-- Claim **C6** (confirmed): the eight pattern-relation scenarios of the spec,
evaluated on `PatternHierarchy.isSubset` exactly as stated. -/
theorem claim_C6 :
    PatternHierarchy.isSubset "Work/Math/**" "Work/**" = true
    ∧ PatternHierarchy.isSubset "Work/**" "Work/Math/**" = false
    ∧ PatternHierarchy.isSubset "**" "**" = false
    ∧ PatternHierarchy.isSubset "*" "**" = true
    ∧ PatternHierarchy.isSubset "**" "*" = false
    ∧ PatternHierarchy.isSubset "README.md" "*.md" = true
    ∧ PatternHierarchy.isSubset "*.md" "*.js" = false
    ∧ PatternHierarchy.isSubset "Workshop/**" "Work/**" = false := by
  decide

/-- Claim **C3** (confirmed): building from the five decks `"**"`, `"**/*"`, `"*"`,
`"Work/**"`, `"README.md"` (in that insertion order, all with zero cards)
yields `"**"` (index 0) as sole root, its only child `"**/*"` (index 1), whose
children are `"*"` (index 2) and `"Work/**"` (index 3), with `"README.md"`
(index 4) a child of `"*"` — hence transitively under `"**/*"`. -/
theorem claim_C3 :
    Deck.buildDeckHierarchy 10
        [⟨"**", []⟩, ⟨"**/*", []⟩, ⟨"*", []⟩, ⟨"Work/**", []⟩, ⟨"README.md", []⟩]
      = some ⟨[0], [[1], [2, 3], [4], [], []]⟩ := by
  decide

/-- Claim **C2** (code bug): on the two empty decks `"**/*"` and `"**/**"` the
comparator claims each pattern is a strict subset of the other (the
`isDirectoryChild` prefix test fires for `"**/*"` under `"**/**"`, and the
`'**/*'` branch of `isMoreSpecific` returns `true` for any child), so the
build records each deck as the other's child: deck 0 is a descendant of
deck 1 and vice versa, and both vanish from the root set — a cycle, which the
claim (and the spec's acyclicity invariant) says can never happen. -/
theorem claim_C2_failing_eval :
    PatternHierarchy.isSubset "**/*" "**/**" = true
    ∧ PatternHierarchy.isSubset "**/**" "**/*" = true
    ∧ Deck.buildDeckHierarchy 10 [⟨"**/*", []⟩, ⟨"**/**", []⟩] = some ⟨[], [[1], [0]]⟩
    ∧ 1 ∈ getIdx [[1], [0]] 0 ∧ 0 ∈ getIdx [[1], [0]] 1 := by
  decide

/-- Claim **C1** (counterexample): deck 0 (`"Work/a.md"`) is a child of both deck 1
(`"Work/**"`) and deck 2 (`"**.md"`), which are mutually unrelated; after the
build it sits in the children sets of two different decks simultaneously,
refuting the at-most-one-parent-slot claim. -/
theorem claim_C1_counterexample :
    Deck.buildDeckHierarchy 10 [⟨"Work/a.md", []⟩, ⟨"Work/**", []⟩, ⟨"**.md", []⟩]
      = some ⟨[1, 2], [[], [0], [0]]⟩
    ∧ 0 ∈ getIdx [[], [0], [0]] 1 ∧ 0 ∈ getIdx [[], [0], [0]] 2 := by
  decide

/-- Claim **C4** (counterexample): `A` has one card and `B` has zero, so the claim
asserts `A.isChildOf B = isSubset A.pattern B.pattern`; but the cardinality
guard fires first and returns `false` while the pattern comparator returns
`true`. -/
theorem claim_C4_counterexample :
    Deck.isChildOf ⟨"Work/Math/**", [⟨"Work/Math/x.md", "q"⟩]⟩ ⟨"Work/**", []⟩ = false
    ∧ PatternHierarchy.isSubset "Work/Math/**" "Work/**" = true := by
  decide

/-- Claim **C5** (counterexample): permuting the input `["**", "**/*", "**/**"]` to
`["**", "**/**", "**/*"]` changes the forest: both runs leave `"**"` as the
sole root with index structure `[[1], [2], [1]]`, but the root's single child
is the deck `"**/*"` in the first run and the deck `"**/**"` in the second, so
the two forests are not structurally identical. -/
theorem claim_C5_counterexample :
    ([⟨"**", []⟩, ⟨"**/*", []⟩, ⟨"**/**", []⟩] : List Deck).Perm
        [⟨"**", []⟩, ⟨"**/**", []⟩, ⟨"**/*", []⟩]
    ∧ Deck.buildDeckHierarchy 10 [⟨"**", []⟩, ⟨"**/*", []⟩, ⟨"**/**", []⟩]
        = some ⟨[0], [[1], [2], [1]]⟩
    ∧ Deck.buildDeckHierarchy 10 [⟨"**", []⟩, ⟨"**/**", []⟩, ⟨"**/*", []⟩]
        = some ⟨[0], [[1], [2], [1]]⟩
    ∧ (getIdx [[1], [2], [1]] 0).map
        (fun i => (([⟨"**", []⟩, ⟨"**/*", []⟩, ⟨"**/**", []⟩] : List Deck).getD i ⟨"", []⟩).pattern)
        = ["**/*"]
    ∧ (getIdx [[1], [2], [1]] 0).map
        (fun i => (([⟨"**", []⟩, ⟨"**/**", []⟩, ⟨"**/*", []⟩] : List Deck).getD i ⟨"", []⟩).pattern)
        = ["**/**"] := by
  decide

/-- Claim **C1** (amended): after any completed build, every deck in the final root
set belongs to no children set; a deck removed from the root set was recorded
as some deck's child, but may end up in several different children sets
simultaneously, so "at most one parent slot" does not hold (see the
counterexample). -/
theorem claim_C1_amended (fuel : Nat) (l : List Deck) (res : BuildResult)
    (h : Deck.buildDeckHierarchy fuel l = some res) :
    ∀ i ∈ res.rootIdx, ∀ y, i ∉ getIdx res.children y := by
  simp only [Deck.buildDeckHierarchy] at h
  cases hout : hierLoopOuter (deckR l) fuel (List.range l.length) (List.range l.length)
      (List.replicate l.length []) [] with
  | none => rw [hout] at h; cases h
  | some p =>
    rw [hout] at h
    cases h
    intro i hi y hmem
    have hinit : ∀ x, memCh (List.replicate l.length []) x → x ∈ ([] : List Nat) := by
      rintro x ⟨y2, hy2⟩
      rw [getIdx_replicate_nil] at hy2
      cases hy2
    have hrem : i ∈ p.2 := hierLoopOuter_memRem _ _ _ _ hout hinit i ⟨y, hmem⟩
    have hfil := (List.mem_filter.mp hi).2
    have hc : p.2.contains i = true := List.elem_iff.mpr hrem
    rw [hc] at hfil
    cases hfil

theorem claim_C1_amended_witness :
    1 ∉ getIdx [[], [0], [0]] 2 ∧ 2 ∉ getIdx [[], [0], [0]] 1 :=
  ⟨claim_C1_amended 10 [⟨"Work/a.md", []⟩, ⟨"Work/**", []⟩, ⟨"**.md", []⟩]
      ⟨[1, 2], [[], [0], [0]]⟩ (by decide) 1 (by decide) 2,
    claim_C1_amended 10 [⟨"Work/a.md", []⟩, ⟨"Work/**", []⟩, ⟨"**.md", []⟩]
      ⟨[1, 2], [[], [0], [0]]⟩ (by decide) 2 (by decide) 1⟩

/-- Claim **C4** (amended): the fallback to the pattern comparator applies whenever
`A` has zero cards (then `B`'s card count is irrelevant); but when `A` has at
least one card and `B` has zero, the cardinality guard fires first and
`A.isChildOf B` is `false` regardless of the pattern relation. -/
theorem claim_C4_amended (A B : Deck) :
    (A.cards = [] → A.isChildOf B = PatternHierarchy.isSubset A.pattern B.pattern)
    ∧ (A.cards ≠ [] → B.cards = [] → A.isChildOf B = false) := by
  constructor
  · intro h
    unfold Deck.isChildOf
    rw [h]
    simp
  · intro h1 h2
    have hlen : 0 < A.cards.length := List.length_pos.mpr h1
    unfold Deck.isChildOf
    rw [h2]
    simp [hlen]

theorem claim_C4_amended_witness :
    Deck.isChildOf ⟨"*", []⟩ ⟨"**", []⟩ = PatternHierarchy.isSubset "*" "**"
    ∧ Deck.isChildOf ⟨"Work/Math/**", [⟨"Work/Math/x.md", "q"⟩]⟩ ⟨"Work/**", []⟩ = false :=
  ⟨(claim_C4_amended ⟨"*", []⟩ ⟨"**", []⟩).1 rfl,
    (claim_C4_amended ⟨"Work/Math/**", [⟨"Work/Math/x.md", "q"⟩]⟩ ⟨"Work/**", []⟩).2
      (by decide) rfl⟩

/-- Claim **C5** (amended): a run is a deterministic function of the input order,
and permuting the input preserves the root set (as a multiset of decks) —
the removal set is computed purely from the pairwise relation — but the
children structure below the roots may change, as the counterexample shows. -/
theorem claim_C5_amended (l₁ l₂ : List Deck) (fuel₁ fuel₂ : Nat) (r₁ r₂ : BuildResult)
    (hperm : l₁.Perm l₂)
    (h₁ : Deck.buildDeckHierarchy fuel₁ l₁ = some r₁)
    (h₂ : Deck.buildDeckHierarchy fuel₂ l₂ = some r₂) :
    (rootDecks l₁ r₁).Perm (rootDecks l₂ r₂) := by
  rw [rootDecks_eq h₁, rootDecks_eq h₂]
  have hpred : ∀ d : Deck, (l₂.any fun o => d.isChildOf o) = (l₁.any fun o => d.isChildOf o) := by
    intro d
    apply bool_eq_of_iff
    rw [List.any_eq_true, List.any_eq_true]
    constructor
    · rintro ⟨o, ho, hd⟩
      exact ⟨o, hperm.mem_iff.mpr ho, hd⟩
    · rintro ⟨o, ho, hd⟩
      exact ⟨o, hperm.mem_iff.mp ho, hd⟩
  have hfc : l₂.filter (fun d => !(l₂.any fun o => d.isChildOf o))
      = l₂.filter (fun d => !(l₁.any fun o => d.isChildOf o)) :=
    List.filter_congr (fun d _ => by rw [hpred d])
  rw [hfc]
  exact List.Perm.filter _ hperm

theorem claim_C5_amended_witness :
    (rootDecks [⟨"**", []⟩, ⟨"**/*", []⟩, ⟨"**/**", []⟩] ⟨[0], [[1], [2], [1]]⟩).Perm
      (rootDecks [⟨"**", []⟩, ⟨"**/**", []⟩, ⟨"**/*", []⟩] ⟨[0], [[1], [2], [1]]⟩) :=
  claim_C5_amended [⟨"**", []⟩, ⟨"**/*", []⟩, ⟨"**/**", []⟩]
    [⟨"**", []⟩, ⟨"**/**", []⟩, ⟨"**/*", []⟩] 10 10
    ⟨[0], [[1], [2], [1]]⟩ ⟨[0], [[1], [2], [1]]⟩ (by decide) (by decide) (by decide)

/-- Claim **C7** (confirmed): the cardinality guard is the first check of
`Deck.isChildOf` — a deck with strictly more cards is never a child. -/
theorem claim_C7 (A B : Deck) (h : A.cards.length > B.cards.length) :
    A.isChildOf B = false := by
  unfold Deck.isChildOf
  rw [if_pos h]

theorem claim_C7_witness :
    (⟨"a", [⟨"x.md", "q"⟩]⟩ : Deck).cards.length > (⟨"b", []⟩ : Deck).cards.length
    ∧ Deck.isChildOf ⟨"a", [⟨"x.md", "q"⟩]⟩ ⟨"b", []⟩ = false :=
  ⟨by decide, claim_C7 ⟨"a", [⟨"x.md", "q"⟩]⟩ ⟨"b", []⟩ (by decide)⟩

/-- Claim **C8** (confirmed): for non-empty decks with equal card counts whose card
path sets fully overlap, `isChildOf` is decided by the pattern comparator;
and when the comparator resolves in neither direction, neither deck ever
appears in the other's children set after any completed build containing
both. -/
theorem claim_C8 (A B : Deck)
    (hA : A.cards ≠ []) (hB : B.cards ≠ [])
    (hlen : A.cards.length = B.cards.length)
    (hsub : (A.cards.all fun c => B.cards.any fun d => d.path == c.path) = true)
    (hsub2 : (B.cards.all fun c => A.cards.any fun d => d.path == c.path) = true) :
    A.isChildOf B = PatternHierarchy.isSubset A.pattern B.pattern
    ∧ (PatternHierarchy.isSubset A.pattern B.pattern = false →
        PatternHierarchy.isSubset B.pattern A.pattern = false →
        ∀ (fuel : Nat) (l : List Deck) (res : BuildResult) (i j : Nat),
          Deck.buildDeckHierarchy fuel l = some res →
          l.get? i = some A → l.get? j = some B →
          i ∉ getIdx res.children j ∧ j ∉ getIdx res.children i) := by
  have key : ∀ (X Y : Deck), X.cards ≠ [] → Y.cards ≠ [] →
      X.cards.length = Y.cards.length →
      (X.cards.all fun c => Y.cards.any fun d => d.path == c.path) = true →
      X.isChildOf Y = PatternHierarchy.isSubset X.pattern Y.pattern := by
    intro X Y hX hY hl hs
    unfold Deck.isChildOf
    simp [hs, hl, List.length_pos.mpr hX, List.length_pos.mpr hY]
  refine ⟨key A B hA hB hlen hsub, ?_⟩
  intro hf1 hf2 fuel l res i j hb hi hj
  have hinv := buildDeckHierarchy_inv hb
  constructor
  · intro hmem
    have hR := hinv j i hmem
    unfold deckR at hR
    rw [hi, hj] at hR
    have hR2 : A.isChildOf B = true := hR
    rw [key A B hA hB hlen hsub, hf1] at hR2
    cases hR2
  · intro hmem
    have hR := hinv i j hmem
    unfold deckR at hR
    rw [hj, hi] at hR
    have hR2 : B.isChildOf A = true := hR
    rw [key B A hB hA hlen.symm hsub2, hf2] at hR2
    cases hR2

theorem claim_C8_witness :
    Deck.isChildOf ⟨"a", [⟨"x.md", "q"⟩]⟩ ⟨"b", [⟨"x.md", "q"⟩]⟩
        = PatternHierarchy.isSubset "a" "b"
    ∧ 0 ∉ getIdx [[], []] 1 ∧ 1 ∉ getIdx [[], []] 0 := by
  refine ⟨(claim_C8 ⟨"a", [⟨"x.md", "q"⟩]⟩ ⟨"b", [⟨"x.md", "q"⟩]⟩
      (by decide) (by decide) (by decide) (by decide) (by decide)).1, ?_⟩
  exact (claim_C8 ⟨"a", [⟨"x.md", "q"⟩]⟩ ⟨"b", [⟨"x.md", "q"⟩]⟩
      (by decide) (by decide) (by decide) (by decide) (by decide)).2
    (by decide) (by decide) 10 [⟨"a", [⟨"x.md", "q"⟩]⟩, ⟨"b", [⟨"x.md", "q"⟩]⟩]
    ⟨[0, 1], [[], []]⟩ 0 1 (by decide) (by decide) (by decide)

/-- Claim **C9** (counterexample): with `A = "chapter-*.md"`, `B = "*.md"`,
`C = "**"` (all empty) the three child relations of the claim hold, but the
additional deck `"**.md"` sits between `B` and `C` while being unrelated to
`A`; after building `["**", "**.md", "*.md", "chapter-*.md"]`, `A` (index 3)
is nested under `B` (index 2) yet is also a *direct* child of `C` (index 0),
refuting "A is not a direct child of C". -/
theorem claim_C9_counterexample :
    Deck.isChildOf ⟨"chapter-*.md", []⟩ ⟨"*.md", []⟩ = true
    ∧ Deck.isChildOf ⟨"*.md", []⟩ ⟨"**", []⟩ = true
    ∧ Deck.isChildOf ⟨"chapter-*.md", []⟩ ⟨"**", []⟩ = true
    ∧ Deck.buildDeckHierarchy 10
        [⟨"**", []⟩, ⟨"**.md", []⟩, ⟨"*.md", []⟩, ⟨"chapter-*.md", []⟩]
      = some ⟨[0], [[1, 3], [2], [3], []]⟩
    ∧ 3 ∈ getIdx [[1, 3], [2], [3], []] 2
    ∧ 3 ∈ getIdx [[1, 3], [2], [3], []] 0 := by
  decide

/-! ## Three-deck builds: machinery for the amended transitivity claim -/

theorem perm_pair {α : Type} {a b : α} {l : List α} (h : l.Perm [a, b]) :
    l = [a, b] ∨ l = [b, a] := by
  have hlen := h.length_eq
  cases l with
  | nil => simp at hlen
  | cons x t =>
    cases t with
    | nil => simp at hlen
    | cons y t2 =>
      cases t2 with
      | cons z t3 => simp at hlen
      | nil =>
        have hx : x = a ∨ x = b := by
          have hm : x ∈ [a, b] := h.mem_iff.mp (List.mem_cons_self _ _)
          simpa using hm
        rcases hx with h1 | h1
        · rw [h1] at h ⊢
          have h2 : [y].Perm [b] := h.cons_inv
          rw [List.perm_singleton.mp h2]
          exact Or.inl rfl
        · rw [h1] at h ⊢
          have h2 : [y].Perm [a] := (h.trans (List.Perm.swap b a [])).cons_inv
          rw [List.perm_singleton.mp h2]
          exact Or.inr rfl

theorem perm_triple {α : Type} {a b c : α} {l : List α} (h : l.Perm [a, b, c]) :
    l = [a, b, c] ∨ l = [a, c, b] ∨ l = [b, a, c] ∨ l = [b, c, a]
      ∨ l = [c, a, b] ∨ l = [c, b, a] := by
  have hlen := h.length_eq
  cases l with
  | nil => simp at hlen
  | cons x t =>
    have hx : x = a ∨ x = b ∨ x = c := by
      have hm : x ∈ [a, b, c] := h.mem_iff.mp (List.mem_cons_self _ _)
      simpa using hm
    rcases hx with h1 | h1 | h1
    · rw [h1] at h ⊢
      rcases perm_pair h.cons_inv with h2 | h2 <;> rw [h2]
      · exact Or.inl rfl
      · exact Or.inr (Or.inl rfl)
    · rw [h1] at h ⊢
      have h2 : t.Perm [a, c] := (h.trans (List.Perm.swap b a [c])).cons_inv
      rcases perm_pair h2 with h3 | h3 <;> rw [h3]
      · exact Or.inr (Or.inr (Or.inl rfl))
      · exact Or.inr (Or.inr (Or.inr (Or.inl rfl)))
    · rw [h1] at h ⊢
      have h3 : ([a, b, c] : List α).Perm [c, a, b] :=
        (List.Perm.cons a (List.Perm.swap c b [])).trans (List.Perm.swap c a [b])
      have h2 : t.Perm [a, b] := (h.trans h3).cons_inv
      rcases perm_pair h2 with h4 | h4 <;> rw [h4]
      · exact Or.inr (Or.inr (Or.inr (Or.inr (Or.inl rfl))))
      · exact Or.inr (Or.inr (Or.inr (Or.inr (Or.inr rfl))))

theorem get?_triple {α : Type} {x y z w : α} {i : Nat}
    (h : ([x, y, z] : List α).get? i = some w) :
    (i = 0 ∧ w = x) ∨ (i = 1 ∧ w = y) ∨ (i = 2 ∧ w = z) := by
  match i, h with
  | 0, h => injection h with h2; exact Or.inl ⟨rfl, h2.symm⟩
  | 1, h => injection h with h2; exact Or.inr (Or.inl ⟨rfl, h2.symm⟩)
  | 2, h => injection h with h2; exact Or.inr (Or.inr ⟨rfl, h2.symm⟩)
  | n + 3, h => exact absurd h (by simp)

/-- Relation table of a three-deck input, with one boolean per ordered pair
(the diagonal is irreflexive). -/
def tripleR (bXY bXZ bYX bYZ bZX bZY : Bool) : Nat → Nat → Bool :=
  fun i j =>
    match i, j with
    | 0, 1 => bXY
    | 0, 2 => bXZ
    | 1, 0 => bYX
    | 1, 2 => bYZ
    | 2, 0 => bZX
    | 2, 1 => bZY
    | _, _ => false

/-- The pairwise relation of a three-deck list is the table of its six
off-diagonal `isChildOf` values. -/
theorem deckR_triple (X Y Z : Deck) {bXY bXZ bYX bYZ bZX bZY : Bool}
    (hXY : X.isChildOf Y = bXY) (hXZ : X.isChildOf Z = bXZ)
    (hYX : Y.isChildOf X = bYX) (hYZ : Y.isChildOf Z = bYZ)
    (hZX : Z.isChildOf X = bZX) (hZY : Z.isChildOf Y = bZY) :
    deckR [X, Y, Z] = tripleR bXY bXZ bYX bYZ bZX bZY := by
  funext i j
  match i, j with
  | 0, 0 => exact Deck.isChildOf_self X
  | 0, 1 => exact hXY
  | 0, 2 => exact hXZ
  | 1, 0 => exact hYX
  | 1, 1 => exact Deck.isChildOf_self Y
  | 1, 2 => exact hYZ
  | 2, 0 => exact hZX
  | 2, 1 => exact hZY
  | 2, 2 => exact Deck.isChildOf_self Z
  | 0, _ + 3 => rfl
  | 1, _ + 3 => rfl
  | 2, _ + 3 => rfl
  | _ + 3, _ => rfl

theorem idx0_of_get? {α : Type} {x y z w : α} {i : Nat}
    (h : ([x, y, z] : List α).get? i = some w) (h1 : w ≠ y) (h2 : w ≠ z) : i = 0 := by
  rcases get?_triple h with ⟨h0, _⟩ | ⟨_, hE⟩ | ⟨_, hE⟩
  exacts [h0, absurd hE h1, absurd hE h2]

theorem idx1_of_get? {α : Type} {x y z w : α} {i : Nat}
    (h : ([x, y, z] : List α).get? i = some w) (h1 : w ≠ x) (h2 : w ≠ z) : i = 1 := by
  rcases get?_triple h with ⟨_, hE⟩ | ⟨h0, _⟩ | ⟨_, hE⟩
  exacts [absurd hE h1, h0, absurd hE h2]

theorem idx2_of_get? {α : Type} {x y z w : α} {i : Nat}
    (h : ([x, y, z] : List α).get? i = some w) (h1 : w ≠ x) (h2 : w ≠ y) : i = 2 := by
  rcases get?_triple h with ⟨_, hE⟩ | ⟨_, hE⟩ | ⟨h0, _⟩
  exacts [absurd hE h1, absurd hE h2, h0]

/-- Claim **C9** (amended): on the three-deck set `{A, B, C}` alone — with
`A.isChildOf B`, `B.isChildOf C`, `A.isChildOf C` holding and none of the
reverse relations — every input order builds successfully, nests `A` under
`B` (as `B`'s direct child) and does not leave `A` a direct child of `C`.
With additional decks present the guarantee fails (see the counterexample:
a deck between `B` and `C` unrelated to `A` leaves `A` directly under `C`
as well). -/
theorem claim_C9_amended (A B C : Deck)
    (hAB : A.isChildOf B = true) (hBC : B.isChildOf C = true) (hAC : A.isChildOf C = true)
    (hBA : B.isChildOf A = false) (hCB : C.isChildOf B = false) (hCA : C.isChildOf A = false) :
    ∀ l : List Deck, l.Perm [A, B, C] →
      (Deck.buildDeckHierarchy 10 l).isSome = true
      ∧ ∀ res, Deck.buildDeckHierarchy 10 l = some res →
          (∀ i j, l.get? i = some A → l.get? j = some B → i ∈ getIdx res.children j)
          ∧ (∀ i j, l.get? i = some A → l.get? j = some C → i ∉ getIdx res.children j) := by
  have hABne : A ≠ B := by
    intro he
    rw [he, Deck.isChildOf_self] at hAB
    cases hAB
  have hACne : A ≠ C := by
    intro he
    rw [he, Deck.isChildOf_self] at hAC
    cases hAC
  have hBCne : B ≠ C := by
    intro he
    rw [he, Deck.isChildOf_self] at hBC
    cases hBC
  intro l hl
  rcases perm_triple hl with rfl | rfl | rfl | rfl | rfl | rfl
  · -- l = [A, B, C]
    have hR := deckR_triple A B C hAB hAC hBA hBC hCA hCB
    have hbuild : Deck.buildDeckHierarchy 10 [A, B, C] = some ⟨[2], [[], [0], [1]]⟩ := by
      simp only [Deck.buildDeckHierarchy]
      rw [hR]
      rfl
    refine ⟨by rw [hbuild]; rfl, ?_⟩
    intro res hres
    rw [hbuild] at hres
    injection hres with hres2
    subst hres2
    constructor
    · intro i j hi hj
      rw [idx0_of_get? hi hABne hACne, idx1_of_get? hj (fun he => hABne he.symm) hBCne]
      decide
    · intro i j hi hj
      rw [idx0_of_get? hi hABne hACne, idx2_of_get? hj (fun he => hACne he.symm)
        (fun he => hBCne he.symm)]
      decide
  · -- l = [A, C, B]
    have hR := deckR_triple A C B hAC hAB hCA hCB hBA hBC
    have hbuild : Deck.buildDeckHierarchy 10 [A, C, B] = some ⟨[1], [[], [2], [0]]⟩ := by
      simp only [Deck.buildDeckHierarchy]
      rw [hR]
      rfl
    refine ⟨by rw [hbuild]; rfl, ?_⟩
    intro res hres
    rw [hbuild] at hres
    injection hres with hres2
    subst hres2
    constructor
    · intro i j hi hj
      rw [idx0_of_get? hi hACne hABne, idx2_of_get? hj (fun he => hABne he.symm) hBCne]
      decide
    · intro i j hi hj
      rw [idx0_of_get? hi hACne hABne, idx1_of_get? hj (fun he => hACne he.symm)
        (fun he => hBCne he.symm)]
      decide
  · -- l = [B, A, C]
    have hR := deckR_triple B A C hBA hBC hAB hAC hCB hCA
    have hbuild : Deck.buildDeckHierarchy 10 [B, A, C] = some ⟨[2], [[1], [], [0]]⟩ := by
      simp only [Deck.buildDeckHierarchy]
      rw [hR]
      rfl
    refine ⟨by rw [hbuild]; rfl, ?_⟩
    intro res hres
    rw [hbuild] at hres
    injection hres with hres2
    subst hres2
    constructor
    · intro i j hi hj
      rw [idx1_of_get? hi hABne hACne, idx0_of_get? hj (fun he => hABne he.symm) hBCne]
      decide
    · intro i j hi hj
      rw [idx1_of_get? hi hABne hACne, idx2_of_get? hj (fun he => hBCne he.symm)
        (fun he => hACne he.symm)]
      decide
  · -- l = [B, C, A]
    have hR := deckR_triple B C A hBC hBA hCB hCA hAB hAC
    have hbuild : Deck.buildDeckHierarchy 10 [B, C, A] = some ⟨[1], [[2], [0], []]⟩ := by
      simp only [Deck.buildDeckHierarchy]
      rw [hR]
      rfl
    refine ⟨by rw [hbuild]; rfl, ?_⟩
    intro res hres
    rw [hbuild] at hres
    injection hres with hres2
    subst hres2
    constructor
    · intro i j hi hj
      rw [idx2_of_get? hi hABne hACne, idx0_of_get? hj hBCne (fun he => hABne he.symm)]
      decide
    · intro i j hi hj
      rw [idx2_of_get? hi hABne hACne, idx1_of_get? hj (fun he => hBCne he.symm)
        (fun he => hACne he.symm)]
      decide
  · -- l = [C, A, B]
    have hR := deckR_triple C A B hCA hCB hAC hAB hBC hBA
    have hbuild : Deck.buildDeckHierarchy 10 [C, A, B] = some ⟨[0], [[2], [], [1]]⟩ := by
      simp only [Deck.buildDeckHierarchy]
      rw [hR]
      rfl
    refine ⟨by rw [hbuild]; rfl, ?_⟩
    intro res hres
    rw [hbuild] at hres
    injection hres with hres2
    subst hres2
    constructor
    · intro i j hi hj
      rw [idx1_of_get? hi hACne hABne, idx2_of_get? hj hBCne (fun he => hABne he.symm)]
      decide
    · intro i j hi hj
      rw [idx1_of_get? hi hACne hABne, idx0_of_get? hj (fun he => hACne he.symm)
        (fun he => hBCne he.symm)]
      decide
  · -- l = [C, B, A]
    have hR := deckR_triple C B A hCB hCA hBC hBA hAC hAB
    have hbuild : Deck.buildDeckHierarchy 10 [C, B, A] = some ⟨[0], [[1], [2], []]⟩ := by
      simp only [Deck.buildDeckHierarchy]
      rw [hR]
      rfl
    refine ⟨by rw [hbuild]; rfl, ?_⟩
    intro res hres
    rw [hbuild] at hres
    injection hres with hres2
    subst hres2
    constructor
    · intro i j hi hj
      rw [idx2_of_get? hi hACne hABne, idx1_of_get? hj hBCne (fun he => hABne he.symm)]
      decide
    · intro i j hi hj
      rw [idx2_of_get? hi hACne hABne, idx0_of_get? hj (fun he => hBCne he.symm)
        (fun he => hACne he.symm)]
      decide

theorem claim_C9_amended_witness :
    (Deck.buildDeckHierarchy 10 [⟨"Work/Math/**", []⟩, ⟨"Work/**", []⟩, ⟨"**", []⟩]).isSome = true
    ∧ 0 ∈ getIdx [[], [0], [1]] 1 ∧ 0 ∉ getIdx [[], [0], [1]] 2 := by
  have h := claim_C9_amended ⟨"Work/Math/**", []⟩ ⟨"Work/**", []⟩ ⟨"**", []⟩
    (by decide) (by decide) (by decide) (by decide) (by decide) (by decide)
    [⟨"Work/Math/**", []⟩, ⟨"Work/**", []⟩, ⟨"**", []⟩] (List.Perm.refl _)
  refine ⟨h.1, ?_, ?_⟩
  · exact (h.2 ⟨[2], [[], [0], [1]]⟩ (by decide)).1 0 1 rfl rfl
  · exact (h.2 ⟨[2], [[], [0], [1]]⟩ (by decide)).2 0 2 rfl rfl

/-! ## `Deck.buildDecks` (deck.ts lines 13-59): the factory and its error
channel

`TFile` carries the fields the factory reads.  The external glob matcher
(`minimatch`, a library dependency) is a parameter `m`, and `Card.init` is
modelled through the validation outcome it observes: per
`CardStorage.fromFrontmatter` (card-storage.ts lines 18-26), the error branch
is taken exactly when the validation error list is non-empty. -/

structure TFile where
  path : String
  extension : String
  basename : String
deriving DecidableEq, Repr

/-- Model of `FileFlashcardsSettings` restricted to the two fields `buildDecks` reads
(`include` and `exclude`; `include` is a reserved word in Lean, hence the
longer field names). -/
structure FileFlashcardsSettings where
  includePatterns : List String
  excludePatterns : List String
deriving Repr

/-- Model of `Card.init` (card.ts lines 17-26): `validate f` is the error list
`CardStorage.validateAndParseFrontmatter` produces for `f`'s frontmatter
(file path attached), `question f` the `flashcard-question` override or the
file basename.  `fromFrontmatter` returns the error list iff it is
non-empty, so the error branch always carries a non-empty list. -/
def Card.init {ε : Type} (validate : TFile → List ε) (question : TFile → String)
    (f : TFile) : Card ⊕ List ε :=
  if (validate f).isEmpty then Sum.inl ⟨f.path, question f⟩ else Sum.inr (validate f)

/-- Model of `Deck.filterFiles` (deck.ts lines 61-91). -/
def Deck.filterFiles (m : String → String → Bool) (allFiles : List TFile)
    (includePatterns excludePatterns : List String) : List TFile :=
  if includePatterns.length = 0 then []
  else
    allFiles.filter (fun file =>
      if file.extension ≠ "md" then false
      else
        let included := includePatterns.any (fun pattern => m file.path pattern)
        if !included then false
        else
          let excluded := excludePatterns.any (fun pattern => m file.path pattern)
          !excluded)

/-- The per-pattern `forEach` of `buildDecks` (deck.ts lines 27-45):
`processed` is `errorProcessedFiles` (a `Set` of paths, insertion order),
`errs` is `allErrors`, `cards` the cards collected for the current deck. -/
def buildDecksFilesLoop {ε : Type} (init : TFile → Card ⊕ List ε) :
    List TFile → List String → List ε → List Card → List String × List ε × List Card
  | [], processed, errs, cards => (processed, errs, cards)
  | f :: rest, processed, errs, cards =>
    if f.path ∈ processed then buildDecksFilesLoop init rest processed errs cards
    else
      match init f with
      | Sum.inr es => buildDecksFilesLoop init rest (processed ++ [f.path]) (errs ++ es) cards
      | Sum.inl c => buildDecksFilesLoop init rest processed errs (cards ++ [c])

/-- The outer pattern loop of `buildDecks` (deck.ts lines 23-49), building one
deck per include pattern. -/
def buildDecksPatternLoop {ε : Type} (m : String → String → Bool)
    (init : TFile → Card ⊕ List ε) (allFiles : List TFile) (excludePatterns : List String) :
    List String → List String → List ε → List Deck → List String × List ε × List Deck
  | [], processed, errs, decks => (processed, errs, decks)
  | p :: rest, processed, errs, decks =>
    let filtered := Deck.filterFiles m allFiles [p] excludePatterns
    let st := buildDecksFilesLoop init filtered processed errs []
    buildDecksPatternLoop m init allFiles excludePatterns rest st.1 st.2.1
      (decks ++ [⟨p, st.2.2⟩])

/-- Model of `Deck.buildDecks` (deck.ts lines 13-59): build one deck per include
pattern, collecting validation errors once per failing file, then build the
hierarchy, and return the deck arena (with its root set) unless errors were
collected, in which case return them. -/
def Deck.buildDecks {ε : Type} (fuel : Nat) (m : String → String → Bool)
    (init : TFile → Card ⊕ List ε) (allFiles : List TFile)
    (settings : FileFlashcardsSettings) :
    Option ((List Deck × BuildResult) ⊕ List ε) :=
  let st := buildDecksPatternLoop m init allFiles settings.excludePatterns
    settings.includePatterns [] [] []
  match Deck.buildDeckHierarchy fuel st.2.2 with
  | none => none
  | some res =>
    some (if st.2.1.length = 0 then Sum.inl (st.2.2, res) else Sum.inr st.2.1)

/-! ### Specification-side descriptions of the error channel -/

/-- All files matched by some include pattern, in pattern-major order — the
exact sequence of `Card.init` call sites. -/
def matchedFiles (m : String → String → Bool) (allFiles : List TFile)
    (includePatterns excludePatterns : List String) : List TFile :=
  includePatterns.flatMap (fun p => Deck.filterFiles m allFiles [p] excludePatterns)

/-- Whether `init` classifies the file as failing validation. -/
def isErr {ε : Type} (init : TFile → Card ⊕ List ε) (f : TFile) : Bool :=
  match init f with
  | Sum.inr _ => true
  | Sum.inl _ => false

/-- The error list `init` produces for a failing file. -/
def errsOf {ε : Type} (init : TFile → Card ⊕ List ε) (f : TFile) : List ε :=
  match init f with
  | Sum.inr es => es
  | Sum.inl _ => []

/-- Keep only the first file of each path (given paths already seen). -/
def dedupByPath (seen : List String) : List TFile → List TFile
  | [] => []
  | f :: rest =>
    if f.path ∈ seen then dedupByPath seen rest
    else f :: dedupByPath (seen ++ [f.path]) rest

/-- The error list `buildDecks` is specified to produce: each failing matched
file contributes its errors exactly once (first occurrence of its path), in
encounter order. -/
def errorsSpec {ε : Type} (m : String → String → Bool) (init : TFile → Card ⊕ List ε)
    (allFiles : List TFile) (includePatterns excludePatterns : List String) : List ε :=
  ((dedupByPath [] ((matchedFiles m allFiles includePatterns excludePatterns).filter
    (isErr init))).map (errsOf init)).flatten

theorem mem_of_mem_dedupByPath {seen : List String} {fs : List TFile} {f : TFile}
    (h : f ∈ dedupByPath seen fs) : f ∈ fs := by
  induction fs generalizing seen with
  | nil => cases h
  | cons g rest ih =>
    unfold dedupByPath at h
    by_cases hg : g.path ∈ seen
    · rw [if_pos hg] at h
      exact List.mem_cons_of_mem _ (ih h)
    · rw [if_neg hg] at h
      rcases List.mem_cons.mp h with rfl | h2
      · exact List.mem_cons_self _ _
      · exact List.mem_cons_of_mem _ (ih h2)

theorem dedupByPath_append (xs : List TFile) :
    ∀ (seen : List String) (ys : List TFile),
      dedupByPath seen (xs ++ ys)
        = dedupByPath seen xs
          ++ dedupByPath (seen ++ (dedupByPath seen xs).map (fun f => f.path)) ys := by
  induction xs with
  | nil =>
    intro seen ys
    simp [dedupByPath]
  | cons f xs ih =>
    intro seen ys
    simp only [List.cons_append, dedupByPath]
    by_cases hf : f.path ∈ seen
    · rw [if_pos hf, if_pos hf]
      exact ih seen ys
    · rw [if_neg hf, if_neg hf]
      simp only [List.append_eq]
      rw [ih (seen ++ [f.path]) ys]
      simp [List.append_assoc]

theorem buildDecksFilesLoop_processed {ε : Type} (init : TFile → Card ⊕ List ε) :
    ∀ (fs : List TFile) (processed : List String) (errs : List ε) (cards : List Card),
      (buildDecksFilesLoop init fs processed errs cards).1
        = processed ++ (dedupByPath processed (fs.filter (isErr init))).map (fun f => f.path) := by
  intro fs
  induction fs with
  | nil =>
    intro processed errs cards
    simp [buildDecksFilesLoop, dedupByPath]
  | cons f rest ih =>
    intro processed errs cards
    simp only [buildDecksFilesLoop, List.filter_cons]
    by_cases hmem : f.path ∈ processed
    · rw [if_pos hmem, ih]
      cases hisErr : isErr init f
      · simp [hisErr]
      · simp [hisErr, dedupByPath, hmem]
    · rw [if_neg hmem]
      cases hinit : init f with
      | inr es =>
        have hisErr : isErr init f = true := by simp [isErr, hinit]
        dsimp only
        rw [ih]
        simp [hisErr, dedupByPath, hmem, List.append_assoc]
      | inl c =>
        have hisErr : isErr init f = false := by simp [isErr, hinit]
        dsimp only
        rw [ih]
        simp [hisErr]

theorem buildDecksFilesLoop_errs {ε : Type} (init : TFile → Card ⊕ List ε) :
    ∀ (fs : List TFile) (processed : List String) (errs : List ε) (cards : List Card),
      (buildDecksFilesLoop init fs processed errs cards).2.1
        = errs ++ ((dedupByPath processed (fs.filter (isErr init))).map (errsOf init)).flatten := by
  intro fs
  induction fs with
  | nil =>
    intro processed errs cards
    simp [buildDecksFilesLoop, dedupByPath]
  | cons f rest ih =>
    intro processed errs cards
    simp only [buildDecksFilesLoop, List.filter_cons]
    by_cases hmem : f.path ∈ processed
    · rw [if_pos hmem, ih]
      cases hisErr : isErr init f
      · simp [hisErr]
      · simp [hisErr, dedupByPath, hmem]
    · rw [if_neg hmem]
      cases hinit : init f with
      | inr es =>
        have hisErr : isErr init f = true := by simp [isErr, hinit]
        have hEs : errsOf init f = es := by simp [errsOf, hinit]
        dsimp only
        rw [ih]
        simp [hisErr, dedupByPath, hmem, hEs, List.append_assoc]
      | inl c =>
        have hisErr : isErr init f = false := by simp [isErr, hinit]
        dsimp only
        rw [ih]
        simp [hisErr]

theorem buildDecksPatternLoop_processed {ε : Type} (m : String → String → Bool)
    (init : TFile → Card ⊕ List ε) (allFiles : List TFile) (excludePatterns : List String) :
    ∀ (ps : List String) (processed : List String) (errs : List ε) (decks : List Deck),
      (buildDecksPatternLoop m init allFiles excludePatterns ps processed errs decks).1
        = processed
          ++ (dedupByPath processed
            ((ps.flatMap (fun p => Deck.filterFiles m allFiles [p] excludePatterns)).filter
              (isErr init))).map (fun f => f.path) := by
  intro ps
  induction ps with
  | nil =>
    intro processed errs decks
    simp [buildDecksPatternLoop, dedupByPath]
  | cons p rest ih =>
    intro processed errs decks
    simp only [buildDecksPatternLoop]
    rw [ih, buildDecksFilesLoop_processed]
    rw [List.flatMap_cons, List.filter_append, dedupByPath_append]
    simp [List.append_assoc]

theorem buildDecksPatternLoop_errs {ε : Type} (m : String → String → Bool)
    (init : TFile → Card ⊕ List ε) (allFiles : List TFile) (excludePatterns : List String) :
    ∀ (ps : List String) (processed : List String) (errs : List ε) (decks : List Deck),
      (buildDecksPatternLoop m init allFiles excludePatterns ps processed errs decks).2.1
        = errs
          ++ ((dedupByPath processed
            ((ps.flatMap (fun p => Deck.filterFiles m allFiles [p] excludePatterns)).filter
              (isErr init))).map (errsOf init)).flatten := by
  intro ps
  induction ps with
  | nil =>
    intro processed errs decks
    simp [buildDecksPatternLoop, dedupByPath]
  | cons p rest ih =>
    intro processed errs decks
    simp only [buildDecksPatternLoop]
    rw [ih, buildDecksFilesLoop_processed, buildDecksFilesLoop_errs]
    rw [List.flatMap_cons, List.filter_append, dedupByPath_append]
    simp [List.append_assoc]

theorem isErr_init {ε : Type} (validate : TFile → List ε) (question : TFile → String)
    (f : TFile) : isErr (Card.init validate question) f = true ↔ validate f ≠ [] := by
  unfold isErr Card.init
  by_cases h : (validate f).isEmpty
  · rw [if_pos h]
    simp [List.isEmpty_iff.mp h]
  · rw [if_neg h]
    constructor
    · intro _ hc
      exact h (by rw [hc]; rfl)
    · intro _
      rfl

theorem errsOf_init {ε : Type} (validate : TFile → List ε) (question : TFile → String)
    (f : TFile) (h : validate f ≠ []) :
    errsOf (Card.init validate question) f = validate f := by
  unfold errsOf Card.init
  have : ¬ (validate f).isEmpty = true := fun hc => h (List.isEmpty_iff.mp hc)
  rw [if_neg this]

theorem errorsSpec_eq_nil_iff {ε : Type} (m : String → String → Bool)
    (validate : TFile → List ε) (question : TFile → String) (allFiles : List TFile)
    (includePatterns excludePatterns : List String) :
    errorsSpec m (Card.init validate question) allFiles includePatterns excludePatterns = []
      ↔ ∀ f ∈ matchedFiles m allFiles includePatterns excludePatterns, validate f = [] := by
  unfold errorsSpec
  constructor
  · intro hnil f hf
    by_contra hval
    have hErrT : isErr (Card.init validate question) f = true :=
      (isErr_init validate question f).mpr hval
    have hfil : f ∈ (matchedFiles m allFiles includePatterns excludePatterns).filter
        (isErr (Card.init validate question)) := List.mem_filter.mpr ⟨hf, hErrT⟩
    cases hfl : (matchedFiles m allFiles includePatterns excludePatterns).filter
        (isErr (Card.init validate question)) with
    | nil => rw [hfl] at hfil; cases hfil
    | cons g rest =>
      rw [hfl] at hnil
      have hgT : isErr (Card.init validate question) g = true := by
        have hgm : g ∈ List.filter (isErr (Card.init validate question))
            (matchedFiles m allFiles includePatterns excludePatterns) := by
          rw [hfl]; exact List.mem_cons_self _ _
        exact (List.mem_filter.mp hgm).2
      have hgval : validate g ≠ [] := (isErr_init validate question g).mp hgT
      have hgE : errsOf (Card.init validate question) g = validate g :=
        errsOf_init validate question g hgval
      simp [dedupByPath, List.append_eq_nil] at hnil
      exact hgval (by rw [← hgE]; exact hnil.1)
  · intro hall
    have hfl : (matchedFiles m allFiles includePatterns excludePatterns).filter
        (isErr (Card.init validate question)) = [] := by
      rw [List.filter_eq_nil]
      intro f hf
      intro hc
      exact (isErr_init validate question f).mp hc (hall f hf)
    rw [hfl]
    rfl

/-- Claim **C10** (confirmed): `buildDecks` returns either a deck forest or a
non-empty error list (the `Sum` return — never a mixture); it returns the
error channel exactly when some matched file fails card validation, and the
returned list is `errorsSpec` — each failing file's errors appear once, at
the first occurrence of its path, even when the file matches several include
patterns. -/
theorem claim_C10 {ε : Type} (fuel : Nat) (m : String → String → Bool)
    (validate : TFile → List ε) (question : TFile → String)
    (allFiles : List TFile) (settings : FileFlashcardsSettings)
    (out : (List Deck × BuildResult) ⊕ List ε)
    (h : Deck.buildDecks fuel m (Card.init validate question) allFiles settings = some out) :
    ((∃ errs, out = Sum.inr errs)
        ↔ ∃ f ∈ matchedFiles m allFiles settings.includePatterns settings.excludePatterns,
            validate f ≠ [])
    ∧ ∀ errs, out = Sum.inr errs →
        errs ≠ []
        ∧ errs = errorsSpec m (Card.init validate question) allFiles
            settings.includePatterns settings.excludePatterns := by
  simp only [Deck.buildDecks] at h
  cases hh : Deck.buildDeckHierarchy fuel
      (buildDecksPatternLoop m (Card.init validate question) allFiles
        settings.excludePatterns settings.includePatterns [] [] []).2.2 with
  | none => rw [hh] at h; cases h
  | some res =>
    rw [hh] at h
    injection h with h2
    have hAE : (buildDecksPatternLoop m (Card.init validate question) allFiles
        settings.excludePatterns settings.includePatterns [] [] []).2.1
        = errorsSpec m (Card.init validate question) allFiles
            settings.includePatterns settings.excludePatterns := by
      rw [buildDecksPatternLoop_errs]
      simp [errorsSpec, matchedFiles]
    by_cases hlen : (buildDecksPatternLoop m (Card.init validate question) allFiles
        settings.excludePatterns settings.includePatterns [] [] []).2.1.length = 0
    · rw [if_pos hlen] at h2
      have hnil := List.length_eq_zero.mp hlen
      refine ⟨⟨?_, ?_⟩, ?_⟩
      · rintro ⟨errs, heq⟩
        rw [← h2] at heq
        cases heq
      · rintro ⟨f, hf, hval⟩
        exfalso
        have hspec : errorsSpec m (Card.init validate question) allFiles
            settings.includePatterns settings.excludePatterns = [] := by
          rw [← hAE]; exact hnil
        exact hval ((errorsSpec_eq_nil_iff m validate question allFiles _ _).mp hspec f hf)
      · intro errs heq
        rw [← h2] at heq
        cases heq
    · rw [if_neg hlen] at h2
      have hne : (buildDecksPatternLoop m (Card.init validate question) allFiles
          settings.excludePatterns settings.includePatterns [] [] []).2.1 ≠ [] := by
        intro hc
        rw [hc] at hlen
        exact hlen rfl
      refine ⟨⟨?_, ?_⟩, ?_⟩
      · intro _
        by_contra hcon
        push_neg at hcon
        refine hne ?_
        rw [hAE]
        exact (errorsSpec_eq_nil_iff m validate question allFiles _ _).mpr hcon
      · intro _
        exact ⟨_, h2.symm⟩
      · intro errs heq
        rw [← h2] at heq
        injection heq with heq2
        exact ⟨by rw [← heq2]; exact hne, by rw [← heq2, hAE]⟩

theorem claim_C10_witness :
    (["boom"] : List String) ≠ []
    ∧ (["boom"] : List String) = errorsSpec (fun _ _ => true)
        (Card.init (fun f => if f.path = "bad.md" then ["boom"] else [])
          (fun f => f.basename))
        [⟨"bad.md", "md", "bad"⟩, ⟨"good.md", "md", "good"⟩] ["**", "*"] [] :=
  (claim_C10 10 (fun _ _ => true) (fun f => if f.path = "bad.md" then ["boom"] else [])
    (fun f => f.basename) [⟨"bad.md", "md", "bad"⟩, ⟨"good.md", "md", "good"⟩]
    ⟨["**", "*"], []⟩ (Sum.inr ["boom"]) (by decide)).2 ["boom"] rfl

end FileFlashcards
